import Mathlib

/-!
Verification development for the gar_tool batch extraction engine.

The definitions below are a shallow embedding of the Python sources
(`gar_tool/file_processor.py`, `gar_tool/database_handler.py`,
`gar_tool/analyzer.py`, `gar_tool/main.py`, `gar_tool/helpers.py`,
`gar_tool/logging_wrapper.py`).  Text is modelled as `List Char`,
SQLite tables as in-memory lists of rows, ISO timestamps as naturals
ordered chronologically, and Python regular-expression scans as
explicit character-level matchers.
-/

namespace GarTool

/-! ## Chunk planner (`file_processor.calculate_chunks`) -/

/-- Python `\s` / `str.strip` whitespace class (ASCII): space, tab,
newline, carriage return, vertical tab, form feed. -/
def pyIsSpace (c : Char) : Bool :=
  [32, 9, 10, 13, 11, 12].contains c.toNat

/-- Length of the maximal whitespace run of `s` starting at index `i`. -/
def wsRunLen (s : List Char) (i : Nat) : Nat :=
  ((s.drop i).takeWhile pyIsSpace).length

/-- Index of the last occurrence of `c` in a list, if any. -/
def lastIdxOf (c : Char) : List Char → Option Nat
  | [] => none
  | x :: rest =>
    match lastIdxOf c rest with
    | some k => some (k + 1)
    | none => if x == c then some 0 else none

/-- End position of a match of `\n\s*\n` starting at `i` (greedy `\s*`
with backtracking: the final `\n` is the last newline inside the
whitespace run that follows position `i`). -/
def matchDoubleNl (s : List Char) (i : Nat) : Option Nat :=
  if s.get? i == some '\n' then
    match lastIdxOf '\n' ((s.drop (i + 1)).take (wsRunLen s (i + 1))) with
    | some k => some (i + 1 + k + 1)
    | none => none
  else none

/-- End position of a match of `\n` starting at `i`. -/
def matchSingleNl (s : List Char) (i : Nat) : Option Nat :=
  if s.get? i == some '\n' then some (i + 1) else none

/-- Python `$` (no MULTILINE): end of string, or just before a final newline. -/
def pyDollar (s : List Char) (p : Nat) : Bool :=
  p == s.length || (p + 1 == s.length && s.get? p == some '\n')

/-- End position of a match of `[\.\!\?]\s|[\.\!\?]$` starting at `i`
(first alternative tried first). -/
def matchSentence (s : List Char) (i : Nat) : Option Nat :=
  match s.get? i with
  | some c =>
    if c == '.' || c == '!' || c == '?' then
      match s.get? (i + 1) with
      | some d => if pyIsSpace d then some (i + 2)
                  else if pyDollar s (i + 1) then some (i + 1) else none
      | none => if pyDollar s (i + 1) then some (i + 1) else none
    else none
  | none => none

/-- End position of a match of `\n\s*([\-\*\#]+\s|\d+\.\s)` starting at `i`.
`\s*` must stop at the first non-whitespace character (the group starts
with a non-whitespace class), and within each alternative only the
maximal run can be followed by the required terminator. -/
def matchMarkdown (s : List Char) (i : Nat) : Option Nat :=
  if s.get? i == some '\n' then
    let p := i + 1 + wsRunLen s (i + 1)
    let m := ((s.drop p).takeWhile (fun c => c == '-' || c == '*' || c == '#')).length
    if 0 < m then
      match s.get? (p + m) with
      | some d => if pyIsSpace d then some (p + m + 1) else none
      | none => none
    else
      let dl := ((s.drop p).takeWhile Char.isDigit).length
      if 0 < dl && s.get? (p + dl) == some '.' then
        match s.get? (p + dl + 1) with
        | some d => if pyIsSpace d then some (p + dl + 2) else none
        | none => none
      else none
  else none

/-- `re.finditer`: scan left to right, collecting non-overlapping matches
as (start, end) pairs.  All patterns used here have positive width; the
fuel is one more than the scan length, enough to reach the end. -/
def finditerGo (m : List Char → Nat → Option Nat) (s : List Char) :
    Nat → Nat → List (Nat × Nat)
  | 0, _ => []
  | fuel + 1, i =>
    if i < s.length then
      match m s i with
      | some e => (i, e) :: finditerGo m s fuel (max e (i + 1))
      | none => finditerGo m s fuel (i + 1)
    else []

def finditer (m : List Char → Nat → Option Nat) (s : List Char) : List (Nat × Nat) :=
  finditerGo m s (s.length + 1) 0

/-- The split-point cascade of `calculate_chunks`, relative to the window:
last `\n\s*\n` match end, else last `\n` match end, else last sentence
terminator match end, else the start of the last markdown-marker match.
`none` plays the role of the Python sentinel `-1`. -/
def windowSplit (w : List Char) : Option Nat :=
  match (finditer matchDoubleNl w).getLast? with
  | some p => some p.2
  | none =>
    match (finditer matchSingleNl w).getLast? with
    | some p => some p.2
    | none =>
      match (finditer matchSentence w).getLast? with
      | some p => some p.2
      | none =>
        match (finditer matchMarkdown w).getLast? with
        | some p => some p.1
        | none => none

/-- One iteration of the `calculate_chunks` loop: the end of the chunk that
starts at `start`. -/
def chunkEnd (text : List Char) (chunkSize start : Nat) : Nat :=
  let potentialEnd := min (start + chunkSize) text.length
  let window := (text.drop start).take (potentialEnd - start)
  let e :=
    match (windowSplit window).map (start + ·) with
    | some p => if start < p then p else potentialEnd
    | none => potentialEnd
  if e ≤ start ∧ start < text.length then potentialEnd else e

/-- The `while start < content_len and safety_counter < max_safety_count`
loop; the fuel is `max_safety_count - safety_counter`. -/
def chunkLoop (text : List Char) (chunkSize : Nat) : Nat → Nat → List (Nat × Nat)
  | _, 0 => []
  | start, fuel + 1 =>
    if start < text.length then
      let e := chunkEnd text chunkSize start
      (start, e) :: chunkLoop text chunkSize e fuel
    else []

/-- `file_processor.calculate_chunks`: character-based chunk boundaries. -/
def calculate_chunks (text : List Char) (chunkSize : Nat) : List (Nat × Nat) :=
  if text.length = 0 then []
  else if text.length ≤ chunkSize then [(0, text.length)]
  else
    let chunks := chunkLoop text chunkSize 0 (text.length + 100)
    match chunks.getLast? with
    | some lastC =>
      if lastC.2 < text.length then chunks ++ [(lastC.2, text.length)] else chunks
    | none => [(0, text.length)]

/-! ### Bounds for the chunk planner -/

lemma mem_of_getLast?_eq {α : Type} {l : List α} {a : α} (h : l.getLast? = some a) :
    a ∈ l := by
  rcases List.mem_getLast?_eq_getLast (Option.mem_def.mpr h) with ⟨hne, rfl⟩
  exact List.getLast_mem hne

lemma get?_some_lt {s : List Char} {i : Nat} {c : Char} (h : s.get? i = some c) :
    i < s.length := by
  by_contra hge
  rw [List.get?_eq_none.mpr (by omega)] at h
  exact Option.noConfusion h

lemma lastIdxOf_lt {c : Char} : ∀ {l : List Char} {k : Nat},
    lastIdxOf c l = some k → k < l.length := by
  intro l
  induction l with
  | nil => intro k h; simp [lastIdxOf] at h
  | cons x rest ih =>
    intro k h
    unfold lastIdxOf at h
    cases hrec : lastIdxOf c rest with
    | some k0 =>
      rw [hrec] at h
      simp only [Option.some.injEq] at h
      have := ih hrec
      simp only [List.length_cons]
      omega
    | none =>
      rw [hrec] at h
      by_cases hx : x == c
      · simp only [hx, if_true, Option.some.injEq] at h
        simp only [List.length_cons]
        omega
      · simp [hx] at h

lemma wsRunLen_le (s : List Char) (i : Nat) : wsRunLen s i ≤ s.length - i := by
  unfold wsRunLen
  calc ((s.drop i).takeWhile pyIsSpace).length
      ≤ (s.drop i).length := (List.takeWhile_prefix pyIsSpace).length_le
    _ = s.length - i := s.length_drop i

lemma matchDoubleNl_bound {s : List Char} {i e : Nat}
    (h : matchDoubleNl s i = some e) : i < e ∧ e ≤ s.length := by
  unfold matchDoubleNl at h
  split at h
  case isTrue hnl =>
    have hi : i < s.length := get?_some_lt (eq_of_beq hnl)
    split at h
    case h_1 k hL =>
      simp only [Option.some.injEq] at h
      have hk := lastIdxOf_lt hL
      have hlen : ((s.drop (i + 1)).take (wsRunLen s (i + 1))).length ≤ s.length - (i + 1) := by
        rw [List.length_take, List.length_drop]
        omega
      omega
    case h_2 => exact Option.noConfusion h
  case isFalse => exact Option.noConfusion h

lemma matchSingleNl_bound {s : List Char} {i e : Nat}
    (h : matchSingleNl s i = some e) : i < e ∧ e ≤ s.length := by
  unfold matchSingleNl at h
  split at h
  case isTrue hnl =>
    simp only [Option.some.injEq] at h
    have hi : i < s.length := get?_some_lt (eq_of_beq hnl)
    omega
  case isFalse => exact Option.noConfusion h

lemma matchSentence_bound {s : List Char} {i e : Nat}
    (h : matchSentence s i = some e) : i < e ∧ e ≤ s.length := by
  unfold matchSentence at h
  split at h
  case h_2 => exact Option.noConfusion h
  case h_1 c hc =>
    have hi : i < s.length := get?_some_lt hc
    split at h
    case isFalse => exact Option.noConfusion h
    case isTrue =>
      split at h
      case h_1 d hd =>
        have hi1 : i + 1 < s.length := get?_some_lt hd
        split at h
        · simp only [Option.some.injEq] at h; omega
        · split at h
          · simp only [Option.some.injEq] at h; omega
          · exact Option.noConfusion h
      case h_2 =>
        split at h
        · simp only [Option.some.injEq] at h; omega
        · exact Option.noConfusion h

lemma matchMarkdown_bound {s : List Char} {i e : Nat}
    (h : matchMarkdown s i = some e) : i < e ∧ e ≤ s.length := by
  unfold matchMarkdown at h
  split at h
  case isFalse => exact Option.noConfusion h
  case isTrue hnl =>
    simp only at h
    split at h
    case isTrue hm0 =>
      split at h
      case h_2 => exact Option.noConfusion h
      case h_1 d hd =>
        have hlt := get?_some_lt hd
        split at h
        · simp only [Option.some.injEq] at h; omega
        · exact Option.noConfusion h
    case isFalse hm0 =>
      split at h
      case isFalse => exact Option.noConfusion h
      case isTrue hdig =>
        split at h
        case h_2 => exact Option.noConfusion h
        case h_1 d hd =>
          have hlt := get?_some_lt hd
          split at h
          · simp only [Option.some.injEq] at h; omega
          · exact Option.noConfusion h

lemma finditerGo_bound {m : List Char → Nat → Option Nat} {s : List Char}
    (hm : ∀ i e, m s i = some e → i < e ∧ e ≤ s.length) :
    ∀ fuel i p, p ∈ finditerGo m s fuel i → p.1 < p.2 ∧ p.2 ≤ s.length := by
  intro fuel
  induction fuel with
  | zero => intro i p hp; simp [finditerGo] at hp
  | succ n ih =>
    intro i p hp
    unfold finditerGo at hp
    by_cases hi : i < s.length
    · rw [if_pos hi] at hp
      cases hme : m s i with
      | some e =>
        rw [hme] at hp
        rcases List.mem_cons.mp hp with hEq | hTail
        · subst hEq; exact hm i e hme
        · exact ih _ _ hTail
      | none =>
        rw [hme] at hp
        exact ih _ _ hp
    · rw [if_neg hi] at hp
      simp at hp

lemma finditer_bound {m : List Char → Nat → Option Nat} {s : List Char}
    (hm : ∀ i e, m s i = some e → i < e ∧ e ≤ s.length)
    {p : Nat × Nat} (hp : p ∈ finditer m s) : p.1 < p.2 ∧ p.2 ≤ s.length :=
  finditerGo_bound hm _ _ _ hp

lemma windowSplit_le {w : List Char} {p : Nat} (h : windowSplit w = some p) :
    p ≤ w.length := by
  unfold windowSplit at h
  cases h1 : (finditer matchDoubleNl w).getLast? with
  | some q =>
    rw [h1] at h
    simp only [Option.some.injEq] at h
    have := finditer_bound (fun i e he => matchDoubleNl_bound he) (mem_of_getLast?_eq h1)
    omega
  | none =>
    rw [h1] at h
    cases h2 : (finditer matchSingleNl w).getLast? with
    | some q =>
      rw [h2] at h
      simp only [Option.some.injEq] at h
      have := finditer_bound (fun i e he => matchSingleNl_bound he) (mem_of_getLast?_eq h2)
      omega
    | none =>
      rw [h2] at h
      cases h3 : (finditer matchSentence w).getLast? with
      | some q =>
        rw [h3] at h
        simp only [Option.some.injEq] at h
        have := finditer_bound (fun i e he => matchSentence_bound he) (mem_of_getLast?_eq h3)
        omega
      | none =>
        rw [h3] at h
        cases h4 : (finditer matchMarkdown w).getLast? with
        | some q =>
          rw [h4] at h
          simp only [Option.some.injEq] at h
          have := finditer_bound (fun i e he => matchMarkdown_bound he) (mem_of_getLast?_eq h4)
          omega
        | none => rw [h4] at h; exact Option.noConfusion h

lemma chunkEnd_bounds {text : List Char} {chunkSize start : Nat}
    (h1 : start < text.length) (h2 : 0 < chunkSize) :
    start < chunkEnd text chunkSize start ∧ chunkEnd text chunkSize start ≤ text.length := by
  unfold chunkEnd
  dsimp only
  generalize hpe : min (start + chunkSize) text.length = pe
  have hpe1 : start < pe := hpe ▸ lt_min (by omega) h1
  have hpe2 : pe ≤ text.length := hpe ▸ min_le_right _ _
  clear hpe
  have hw : ((text.drop start).take (pe - start)).length = pe - start := by
    rw [List.length_take, List.length_drop]
    exact Nat.min_eq_left (by omega)
  cases hws : windowSplit ((text.drop start).take (pe - start)) with
  | none =>
    simp only [hws, Option.map_none']
    split
    · omega
    · omega
  | some p =>
    have hple := windowSplit_le hws
    rw [hw] at hple
    simp only [hws, Option.map_some']
    by_cases hsp : start < start + p
    · rw [if_pos hsp]
      have : ¬ (start + p ≤ start ∧ start < text.length) := by omega
      rw [if_neg this]
      omega
    · rw [if_neg hsp]
      split
      · omega
      · omega

lemma chunkLoop_eq_nil {text : List Char} {chunkSize start : Nat}
    (h : ¬ start < text.length) : ∀ fuel, chunkLoop text chunkSize start fuel = [] := by
  intro fuel
  cases fuel with
  | zero => rfl
  | succ n => simp [chunkLoop, h]

lemma getLast?_cons_of_ne_nil {α : Type} {a : α} {l : List α} (h : l ≠ []) :
    (a :: l).getLast? = l.getLast? := by
  cases l with
  | nil => exact absurd rfl h
  | cons b t => exact List.getLast?_cons_cons

lemma chunkLoop_spec (text : List Char) (chunkSize : Nat) (h2 : 0 < chunkSize) :
    ∀ fuel start, start < text.length → text.length - start ≤ fuel →
      chunkLoop text chunkSize start fuel ≠ [] ∧
      (chunkLoop text chunkSize start fuel).head?.map Prod.fst = some start ∧
      (chunkLoop text chunkSize start fuel).getLast?.map Prod.snd = some text.length ∧
      List.Chain' (fun a b => a.2 = b.1) (chunkLoop text chunkSize start fuel) ∧
      ∀ p ∈ chunkLoop text chunkSize start fuel, p.1 < p.2 ∧ p.2 ≤ text.length := by
  intro fuel
  induction fuel with
  | zero => intro start h hle; omega
  | succ n ih =>
    intro start h hle
    obtain ⟨hgt, hle2⟩ := chunkEnd_bounds h h2
    have hunfold : chunkLoop text chunkSize start (n + 1)
        = (start, chunkEnd text chunkSize start)
          :: chunkLoop text chunkSize (chunkEnd text chunkSize start) n := by
      simp [chunkLoop, h]
    by_cases hlt : chunkEnd text chunkSize start < text.length
    · obtain ⟨hne, hhead, hlast, hchain, hmem⟩ := ih (chunkEnd text chunkSize start) hlt (by omega)
      rw [hunfold]
      refine ⟨List.cons_ne_nil _ _, by simp, ?_, ?_, ?_⟩
      · rw [getLast?_cons_of_ne_nil hne]
        exact hlast
      · rw [List.chain'_cons']
        refine ⟨?_, hchain⟩
        intro y hy
        rw [Option.mem_def] at hy
        rw [hy, Option.map_some'] at hhead
        simp only [Option.some.injEq] at hhead
        exact hhead.symm
      · intro p hp
        rcases List.mem_cons.mp hp with hEq | hTail
        · subst hEq; exact ⟨hgt, hle2⟩
        · exact hmem p hTail
    · have heq : chunkEnd text chunkSize start = text.length := by omega
      rw [hunfold, chunkLoop_eq_nil hlt]
      refine ⟨List.cons_ne_nil _ _, by simp, by simp [heq], by simp, ?_⟩
      intro p hp
      rcases List.mem_cons.mp hp with hEq | hTail
      · subst hEq; exact ⟨hgt, hle2⟩
      · simp at hTail

/-- C1. For every non-empty text and every positive chunk size,
`calculate_chunks` returns a non-empty list of ranges whose first range
starts at 0, whose last range ends at the content length, where each
successive range starts exactly where the previous one ends, and where
every range has end strictly greater than start (and within bounds). -/
theorem calculate_chunks_exact_cover (text : List Char) (chunkSize : Nat)
    (h1 : text ≠ []) (h2 : 0 < chunkSize) :
    calculate_chunks text chunkSize ≠ [] ∧
    (calculate_chunks text chunkSize).head?.map Prod.fst = some 0 ∧
    (calculate_chunks text chunkSize).getLast?.map Prod.snd = some text.length ∧
    List.Chain' (fun a b => a.2 = b.1) (calculate_chunks text chunkSize) ∧
    ∀ p ∈ calculate_chunks text chunkSize, p.1 < p.2 ∧ p.2 ≤ text.length := by
  have hlen : 0 < text.length := List.length_pos.mpr h1
  unfold calculate_chunks
  rw [if_neg (by omega)]
  by_cases hsmall : text.length ≤ chunkSize
  · rw [if_pos hsmall]
    refine ⟨List.cons_ne_nil _ _, by simp, by simp, by simp, ?_⟩
    intro p hp
    simp only [List.mem_singleton] at hp
    subst hp
    exact ⟨hlen, le_refl _⟩
  · rw [if_neg hsmall]
    obtain ⟨hne, hhead, hlast, hchain, hmem⟩ :=
      chunkLoop_spec text chunkSize h2 (text.length + 100) 0 hlen (by omega)
    cases hgl : (chunkLoop text chunkSize 0 (text.length + 100)).getLast? with
    | none =>
      rw [hgl] at hlast
      simp at hlast
    | some q =>
      rw [hgl] at hlast
      simp only [Option.map_some', Option.some.injEq] at hlast
      simp only [hgl]
      rw [if_neg (by omega)]
      exact ⟨hne, hhead, by rw [hgl, Option.map_some', hlast], hchain, hmem⟩

/-- Witness for C1 at a concrete input. -/
theorem calculate_chunks_exact_cover_witness :
    ("para one\n\npara two\nline. sent! quest?".data ≠ [] ∧ 0 < 10) ∧
    (calculate_chunks "para one\n\npara two\nline. sent! quest?".data 10 ≠ [] ∧
     (calculate_chunks "para one\n\npara two\nline. sent! quest?".data 10).head?.map Prod.fst
        = some 0 ∧
     (calculate_chunks "para one\n\npara two\nline. sent! quest?".data 10).getLast?.map Prod.snd
        = some "para one\n\npara two\nline. sent! quest?".data.length ∧
     List.Chain' (fun a b => a.2 = b.1)
        (calculate_chunks "para one\n\npara two\nline. sent! quest?".data 10) ∧
     ∀ p ∈ calculate_chunks "para one\n\npara two\nline. sent! quest?".data 10,
        p.1 < p.2 ∧ p.2 ≤ "para one\n\npara two\nline. sent! quest?".data.length) :=
  ⟨⟨by decide, by decide⟩,
   calculate_chunks_exact_cover "para one\n\npara two\nline. sent! quest?".data 10
     (by decide) (by decide)⟩

/-! ## Progress store (`database_handler.py`)

SQLite tables become in-memory lists of rows; an `INSERT` appends.
ISO-8601 UTC timestamp strings compare lexicographically exactly as
chronologically, so timestamps are modelled as naturals. -/

/-- A row of the FCHUNKS table (`file`, `chunknumber`, `start`, `end`). -/
structure ChunkRow where
  file : String
  chunknumber : Nat
  start : Nat
  stop : Nat
  deriving DecidableEq

/-- Structured data extracted from a response (the values Python's
`json.loads` can produce, declared ahead of the store rows that hold
them; integers stand for JSON numbers in this model). -/
inductive Json where
  | null
  | bool (b : Bool)
  | num (n : Int)
  | str (s : String)
  | arr (xs : List Json)
  | obj (fields : List (String × Json))

/-- A row of the REQUEST_LOG table. -/
structure LogRow where
  file : String
  chunknumber : Nat
  timestamp : Nat
  model : String
  raw_response : String
  success : Bool
  error_message : Option String

/-- A row of the results table; the dynamically mapped destination
columns are collected in `extra`. -/
structure ResultRow where
  request_id : Int
  file : String
  chunknumber : Nat
  run_tag : Option String
  extra : List (String × Option Json)

/-- The durable store: the three tables of `Database._define_schema`. -/
structure DBState where
  fchunks : List ChunkRow
  request_log : List LogRow
  results : List ResultRow

/-- The configuration fields consumed by the store and the pipeline
(`ExtractorConfig`): `node_configs` keeps each node name with its
`required` flag, `db_mapping` maps node names to destination columns. -/
structure ExtractorConfig where
  model : String
  run_tag : Option String
  max_failures : Nat
  node_configs : List (String × Bool)
  db_mapping : List (String × String)

/-- `Database.chunk_exists`: `SELECT 1 FROM FCHUNKS WHERE file = ? LIMIT 1`. -/
def chunk_exists (db : DBState) (filename : String) : Bool :=
  db.fchunks.any fun r => r.file == filename

/-- The rows inserted by `Database.insert_chunks` (`enumerate(chunks)`). -/
def mkChunkRows (file : String) (chunks : List (Nat × Nat)) : List ChunkRow :=
  chunks.enum.map fun ic => ⟨file, ic.1, ic.2.1, ic.2.2⟩

/-- `Database.insert_chunks`: plain `INSERT INTO FCHUNKS`; the table's
only primary key is a NULL-valued placeholder column, so nothing is
rejected or deduplicated. -/
def insert_chunks (db : DBState) (file : String) (chunks : List (Nat × Nat)) : DBState :=
  { db with fchunks := db.fchunks ++ mkChunkRows file chunks }

/-- The run-tag filter fragment of `get_unprocessed_chunks`:
`'AND r.run_tag = ?' if run_tag else 'AND r.run_tag IS NULL' if run_tag is
None else ''` — a non-empty tag compares with a bound parameter, `None`
uses `IS NULL`, and the falsy empty string drops the filter entirely. -/
inductive TagFilter where
  | eqParam (t : String)
  | isNull
  | noFilter
  deriving DecidableEq

def runTagFilter : Option String → TagFilter
  | some t => if t ≠ "" then .eqParam t else .noFilter
  | none => .isNull

/-- Number of `?` placeholders in the SQL built by `get_unprocessed_chunks`:
`c.file = ?`, the optional run-tag filter, `rl.timestamp >= ?`, `COUNT(*) >= ?`. -/
def placeholderCount (f : TagFilter) : Nat :=
  1 + (match f with | .eqParam _ => 1 | _ => 0) + 2

/-- Number of parameters bound by `get_unprocessed_chunks`: `[filename]`,
plus the run tag whenever it `is not None`, plus `start_iso` and
`max_failures`. -/
def boundParamCount (run_tag : Option String) : Nat :=
  1 + (match run_tag with | some _ => 1 | none => 0) + 2

/-- SQL `r.run_tag = t` / `r.run_tag IS NULL` on a row's tag (SQL equality
with NULL is never true). -/
def resultTagMatches (f : TagFilter) (rowTag : Option String) : Bool :=
  match f with
  | .eqParam t => rowTag == some t
  | .isNull => rowTag == none
  | .noFilter => true

/-- The results-table `NOT EXISTS` subquery of `get_unprocessed_chunks`. -/
def hasResult (results : List ResultRow) (file : String) (c : Nat) (f : TagFilter) : Bool :=
  results.any fun r => r.file == file && r.chunknumber == c && resultTagMatches f r.run_tag

/-- Count of failed attempts for `(file, c)` with `timestamp >= startTs`
(the grouped `REQUEST_LOG` subquery of `get_unprocessed_chunks`). -/
def failuresSince (log : List LogRow) (file : String) (c : Nat) (startTs : Nat) : Nat :=
  (log.filter fun r =>
    r.file == file && r.chunknumber == c && r.success == false && decide (startTs ≤ r.timestamp)).length

instance : DecidableRel (fun a b : String × Nat => a.2 ≤ b.2) :=
  fun a b => Nat.decLe a.2 b.2

instance : IsTotal (String × Nat) (fun a b => a.2 ≤ b.2) :=
  ⟨fun a b => Nat.le_total a.2 b.2⟩

instance : IsTrans (String × Nat) (fun a b => a.2 ≤ b.2) :=
  ⟨fun _ _ _ hab hbc => Nat.le_trans hab hbc⟩

/-- `Database.get_unprocessed_chunks`: chunks of `filename` with no result
row for the configured run tag and fewer than `max_failures` failures
since `start_iso`, ordered by chunk number.  When the placeholder count
and the bound-parameter count disagree (run tag `= ''`), sqlite raises a
binding error which `_execute_query` swallows, and the function returns
the empty list (`cursor.fetchall() if cursor else []`). -/
def get_unprocessed_chunks (db : DBState) (cfg : ExtractorConfig)
    (filename : String) (startTs : Nat) : List (String × Nat) :=
  let f := runTagFilter cfg.run_tag
  if placeholderCount f ≠ boundParamCount cfg.run_tag then []
  else
    List.insertionSort (fun a b => a.2 ≤ b.2)
      ((db.fchunks.filter fun c =>
          c.file == filename
          && !(hasResult db.results c.file c.chunknumber f)
          && !(decide (cfg.max_failures ≤ failuresSince db.request_log c.file c.chunknumber startTs))).map
        fun c => (c.file, c.chunknumber))

/-- The chunk-registration step of the coordinator's discovery phase
(`main.py`): `if not db.chunk_exists(...): bounds = calculate_chunks(...);
if bounds: db.insert_chunks(...)`. -/
def discoverStep (db : DBState) (file : String) (content : List Char) (chunkSize : Nat) : DBState :=
  if chunk_exists db file then db
  else
    let bounds := calculate_chunks content chunkSize
    if bounds ≠ [] then insert_chunks db file bounds else db

/-- Files that currently have pending chunks (`files_needing_processing`
in `main.py` step 2, over the candidate files whose content is valid). -/
def files_needing_processing (db : DBState) (cfg : ExtractorConfig)
    (files : List String) (startTs : Nat) : List String :=
  files.filter fun f => !(get_unprocessed_chunks db cfg f startTs).isEmpty

/-- The unit of work the coordinator executes next (`main.py` step 3):
`random.choice(files_needing_processing)` modelled by the drawn index
`choice`, then the chosen file's pending chunks are processed in query
order, so the next unit is the first pending chunk of the chosen file. -/
def next_unit (db : DBState) (cfg : ExtractorConfig) (files : List String)
    (startTs : Nat) (choice : Nat) : Option (String × Nat) :=
  match (files_needing_processing db cfg files startTs).get? choice with
  | none => none
  | some f => (get_unprocessed_chunks db cfg f startTs).head?

/-! ### Pending-query theorems -/

lemma hasResult_eq_false_iff (results : List ResultRow) (file : String) (cn : Nat)
    (f : TagFilter) (tag : Option String)
    (htm : ∀ rt : Option String, resultTagMatches f rt = true ↔ rt = tag) :
    hasResult results file cn f = false ↔
      ¬ ∃ r ∈ results, r.file = file ∧ r.chunknumber = cn ∧ r.run_tag = tag := by
  rw [Bool.eq_false_iff, Ne, hasResult, List.any_eq_true]
  apply not_congr
  constructor
  · rintro ⟨r, hr, hcond⟩
    simp only [Bool.and_eq_true, beq_iff_eq] at hcond
    exact ⟨r, hr, hcond.1.1, hcond.1.2, (htm r.run_tag).mp hcond.2⟩
  · rintro ⟨r, hr, h1, h2, h3⟩
    refine ⟨r, hr, ?_⟩
    simp only [Bool.and_eq_true, beq_iff_eq]
    exact ⟨⟨h1, h2⟩, (htm r.run_tag).mpr h3⟩

lemma mem_pending_aux (db : DBState) (cfg : ExtractorConfig) (filename : String)
    (startTs c : Nat) (f : TagFilter)
    (hf : runTagFilter cfg.run_tag = f)
    (hbind : placeholderCount f = boundParamCount cfg.run_tag)
    (htm : ∀ rt : Option String, resultTagMatches f rt = true ↔ rt = cfg.run_tag) :
    ((filename, c) ∈ get_unprocessed_chunks db cfg filename startTs ↔
      ((∃ r ∈ db.fchunks, r.file = filename ∧ r.chunknumber = c) ∧
       (¬ ∃ r ∈ db.results, r.file = filename ∧ r.chunknumber = c ∧ r.run_tag = cfg.run_tag) ∧
       failuresSince db.request_log filename c startTs < cfg.max_failures)) := by
  unfold get_unprocessed_chunks
  dsimp only
  rw [hf, if_neg (not_not_intro hbind)]
  rw [List.mem_insertionSort, List.mem_map]
  constructor
  · rintro ⟨row, hrowf, heq⟩
    rw [List.mem_filter] at hrowf
    obtain ⟨hmem, hcond⟩ := hrowf
    simp only [Bool.and_eq_true, beq_iff_eq, Bool.not_eq_true',
      decide_eq_false_iff_not, not_le] at hcond
    obtain ⟨⟨hfile, hnores⟩, hfail⟩ := hcond
    have hfeq : row.file = filename := by
      have := congrArg Prod.fst heq
      simpa using this
    have hceq : row.chunknumber = c := by
      have := congrArg Prod.snd heq
      simpa using this
    subst hceq
    refine ⟨⟨row, hmem, hfile, rfl⟩, ?_, ?_⟩
    · rw [← hfile]
      exact (hasResult_eq_false_iff db.results row.file row.chunknumber f cfg.run_tag htm).mp
        hnores
    · rw [← hfile]
      exact hfail
  · rintro ⟨⟨row, hmem, hfile, hchunk⟩, hnores, hfail⟩
    refine ⟨row, ?_, by rw [hfile, hchunk]⟩
    rw [List.mem_filter]
    refine ⟨hmem, ?_⟩
    simp only [Bool.and_eq_true, beq_iff_eq, Bool.not_eq_true',
      decide_eq_false_iff_not, not_le]
    refine ⟨⟨hfile, ?_⟩, ?_⟩
    · apply (hasResult_eq_false_iff db.results row.file row.chunknumber f cfg.run_tag htm).mpr
      rw [hfile, hchunk]
      exact hnores
    · rw [hfile, hchunk]
      exact hfail

/-- C2 (amended): provided the configured run tag is `None` or a non-empty
string, a chunk is returned by `get_unprocessed_chunks` iff it is
registered for the document, no result row exists for
`(document, chunk, run_tag)`, and the count of failed attempts since
`run_start` is below `max_failures`. -/
theorem pending_chunk_iff (db : DBState) (cfg : ExtractorConfig) (filename : String)
    (startTs c : Nat)
    (h : cfg.run_tag = none ∨ ∃ t, cfg.run_tag = some t ∧ t ≠ "") :
    (filename, c) ∈ get_unprocessed_chunks db cfg filename startTs ↔
      ((∃ r ∈ db.fchunks, r.file = filename ∧ r.chunknumber = c) ∧
       (¬ ∃ r ∈ db.results, r.file = filename ∧ r.chunknumber = c ∧ r.run_tag = cfg.run_tag) ∧
       failuresSince db.request_log filename c startTs < cfg.max_failures) := by
  rcases h with hnone | ⟨t, htag, hne⟩
  · refine mem_pending_aux db cfg filename startTs c .isNull ?_ ?_ ?_
    · rw [hnone]; rfl
    · rw [hnone]; rfl
    · intro rt
      rw [hnone]
      simp [resultTagMatches]
  · refine mem_pending_aux db cfg filename startTs c (.eqParam t) ?_ ?_ ?_
    · rw [htag]
      simp [runTagFilter, hne]
    · rw [htag]; rfl
    · intro rt
      rw [htag]
      simp [resultTagMatches]

/-- C2 counterexample: with the empty-string run tag the biconditional of
the claim fails — the chunk is registered, has no result row and no
failures, yet is not reported pending. -/
theorem pending_chunk_iff_fails_for_empty_run_tag :
    ¬ ((("f", 0) ∈ get_unprocessed_chunks ⟨[⟨"f", 0, 0, 5⟩], [], []⟩
          ⟨"m", some "", 2, [], []⟩ "f" 0) ↔
       ((∃ r ∈ (⟨[⟨"f", 0, 0, 5⟩], [], []⟩ : DBState).fchunks,
            r.file = "f" ∧ r.chunknumber = 0) ∧
        (¬ ∃ r ∈ (⟨[⟨"f", 0, 0, 5⟩], [], []⟩ : DBState).results,
            r.file = "f" ∧ r.chunknumber = 0 ∧ r.run_tag = some "") ∧
        failuresSince (⟨[⟨"f", 0, 0, 5⟩], [], []⟩ : DBState).request_log "f" 0 0 < 2)) := by
  decide

/-- Witness for the amended C2 at a concrete input. -/
theorem pending_chunk_iff_witness :
    ((some "t" : Option String) = none ∨ ∃ u, (some "t" : Option String) = some u ∧ u ≠ "") ∧
    ((("f", 0) ∈ get_unprocessed_chunks ⟨[⟨"f", 0, 0, 5⟩], [], []⟩
          ⟨"m", some "t", 2, [], []⟩ "f" 0) ↔
       ((∃ r ∈ (⟨[⟨"f", 0, 0, 5⟩], [], []⟩ : DBState).fchunks,
            r.file = "f" ∧ r.chunknumber = 0) ∧
        (¬ ∃ r ∈ (⟨[⟨"f", 0, 0, 5⟩], [], []⟩ : DBState).results,
            r.file = "f" ∧ r.chunknumber = 0 ∧ r.run_tag = some "t") ∧
        failuresSince (⟨[⟨"f", 0, 0, 5⟩], [], []⟩ : DBState).request_log "f" 0 0 < 2)) :=
  ⟨Or.inr ⟨"t", rfl, by decide⟩,
   pending_chunk_iff ⟨[⟨"f", 0, 0, 5⟩], [], []⟩ ⟨"m", some "t", 2, [], []⟩ "f" 0 0
     (Or.inr ⟨"t", rfl, by decide⟩)⟩

/-- C10. With an empty-string run tag, the SQL of `get_unprocessed_chunks`
contains no run-tag placeholder (3 placeholders) while 4 parameters are
bound; the binding failure is swallowed by `_execute_query` and the
function reports every chunk of every document as not pending. -/
theorem empty_run_tag_reports_nothing_pending (m : String) (mf : Nat)
    (ncs : List (String × Bool)) (dbm : List (String × String))
    (db : DBState) (filename : String) (startTs : Nat) :
    get_unprocessed_chunks db ⟨m, some "", mf, ncs, dbm⟩ filename startTs = [] ∧
    runTagFilter (some "") = TagFilter.noFilter ∧
    placeholderCount (runTagFilter (some "")) = 3 ∧
    boundParamCount (some "") = 4 :=
  ⟨rfl, rfl, rfl, rfl⟩

/-! ### Work-selection theorems -/

lemma pending_fst_eq (db : DBState) (cfg : ExtractorConfig) (filename : String)
    (startTs : Nat) :
    ∀ p ∈ get_unprocessed_chunks db cfg filename startTs, p.1 = filename := by
  intro p hp
  unfold get_unprocessed_chunks at hp
  dsimp only at hp
  split at hp
  · simp at hp
  · rw [List.mem_insertionSort] at hp
    simp only [List.mem_map, List.mem_filter, Bool.and_eq_true, beq_iff_eq] at hp
    rcases hp with ⟨row, ⟨_, ⟨hfile, _⟩, _⟩, heq⟩
    rw [← heq]
    exact hfile

lemma pending_sorted (db : DBState) (cfg : ExtractorConfig) (filename : String)
    (startTs : Nat) :
    List.Sorted (fun a b : String × Nat => a.2 ≤ b.2)
      (get_unprocessed_chunks db cfg filename startTs) := by
  unfold get_unprocessed_chunks
  dsimp only
  split
  · exact List.sorted_nil
  · exact List.sorted_insertionSort _ _

/-- C7 (amended): the coordinator draws a file uniformly among the files
that currently have pending chunks, and the next unit of work is that
file's first pending chunk in ascending chunk order — the minimum pending
chunk number of the chosen file, not a uniformly random pending pair. -/
theorem next_unit_is_first_pending_of_chosen_file (db : DBState)
    (cfg : ExtractorConfig) (files : List String) (startTs i : Nat) (f : String)
    (h : (files_needing_processing db cfg files startTs).get? i = some f) :
    ∃ c, next_unit db cfg files startTs i = some (f, c) ∧
      (f, c) ∈ get_unprocessed_chunks db cfg f startTs ∧
      ∀ p ∈ get_unprocessed_chunks db cfg f startTs, c ≤ p.2 := by
  have hfmem : f ∈ files_needing_processing db cfg files startTs := List.get?_mem h
  have hne : get_unprocessed_chunks db cfg f startTs ≠ [] := by
    have := (List.mem_filter.mp hfmem).2
    simp only [Bool.not_eq_true'] at this
    intro habs
    rw [habs] at this
    simp at this
  cases hh : (get_unprocessed_chunks db cfg f startTs).head? with
  | none => exact absurd (List.head?_eq_none_iff.mp hh) hne
  | some p =>
    have hpmem : p ∈ get_unprocessed_chunks db cfg f startTs := List.mem_of_mem_head? hh
    have hpf : p.1 = f := pending_fst_eq db cfg f startTs p hpmem
    refine ⟨p.2, ?_, ?_, ?_⟩
    · unfold next_unit
      rw [h]
      dsimp only
      rw [hh, ← hpf]
    · have hpeq : p = (f, p.2) := by rw [← hpf]
      rw [← hpeq]
      exact hpmem
    · intro q hq
      have hs := pending_sorted db cfg f startTs
      cases hl : get_unprocessed_chunks db cfg f startTs with
      | nil => rw [hl] at hq; simp at hq
      | cons a t =>
        rw [hl] at hh hq hs
        simp only [List.head?_cons, Option.some.injEq] at hh
        subst hh
        rcases List.mem_cons.mp hq with hEq | hTail
        · subst hEq; exact le_refl _
        · exact List.rel_of_sorted_cons hs q hTail

/-- C7 counterexample: with two pending chunks in fileA and one in fileB,
the pair (fileA, 1) is pending yet is never the selected unit of work for
any random draw, so the selection is not uniform over pending pairs. -/
theorem next_unit_not_uniform_over_pairs :
    ("fileA", 1) ∈ get_unprocessed_chunks
        ⟨[⟨"fileA", 0, 0, 5⟩, ⟨"fileA", 1, 5, 9⟩, ⟨"fileB", 0, 0, 4⟩], [], []⟩
        ⟨"m", some "t", 2, [], []⟩ "fileA" 0 ∧
    next_unit ⟨[⟨"fileA", 0, 0, 5⟩, ⟨"fileA", 1, 5, 9⟩, ⟨"fileB", 0, 0, 4⟩], [], []⟩
        ⟨"m", some "t", 2, [], []⟩ ["fileA", "fileB"] 0 0 = some ("fileA", 0) ∧
    next_unit ⟨[⟨"fileA", 0, 0, 5⟩, ⟨"fileA", 1, 5, 9⟩, ⟨"fileB", 0, 0, 4⟩], [], []⟩
        ⟨"m", some "t", 2, [], []⟩ ["fileA", "fileB"] 0 1 = some ("fileB", 0) ∧
    ∀ i, next_unit ⟨[⟨"fileA", 0, 0, 5⟩, ⟨"fileA", 1, 5, 9⟩, ⟨"fileB", 0, 0, 4⟩], [], []⟩
        ⟨"m", some "t", 2, [], []⟩ ["fileA", "fileB"] 0 i ≠ some ("fileA", 1) := by
  refine ⟨by decide, by decide, by decide, ?_⟩
  intro i
  cases i with
  | zero => decide
  | succ j =>
    cases j with
    | zero => decide
    | succ k =>
      have hfnp : files_needing_processing
          ⟨[⟨"fileA", 0, 0, 5⟩, ⟨"fileA", 1, 5, 9⟩, ⟨"fileB", 0, 0, 4⟩], [], []⟩
          ⟨"m", some "t", 2, [], []⟩ ["fileA", "fileB"] 0 = ["fileA", "fileB"] := by decide
      unfold next_unit
      rw [hfnp]
      simp [List.get?]

/-- Witness for the amended C7 at a concrete input. -/
theorem next_unit_is_first_pending_witness :
    ((files_needing_processing ⟨[⟨"fileA", 0, 0, 5⟩, ⟨"fileA", 1, 5, 9⟩], [], []⟩
        ⟨"m", some "t", 2, [], []⟩ ["fileA"] 0).get? 0 = some "fileA") ∧
    (∃ c, next_unit ⟨[⟨"fileA", 0, 0, 5⟩, ⟨"fileA", 1, 5, 9⟩], [], []⟩
        ⟨"m", some "t", 2, [], []⟩ ["fileA"] 0 0 = some ("fileA", c) ∧
      ("fileA", c) ∈ get_unprocessed_chunks ⟨[⟨"fileA", 0, 0, 5⟩, ⟨"fileA", 1, 5, 9⟩], [], []⟩
        ⟨"m", some "t", 2, [], []⟩ "fileA" 0 ∧
      ∀ p ∈ get_unprocessed_chunks ⟨[⟨"fileA", 0, 0, 5⟩, ⟨"fileA", 1, 5, 9⟩], [], []⟩
        ⟨"m", some "t", 2, [], []⟩ "fileA" 0, c ≤ p.2) :=
  ⟨by decide,
   next_unit_is_first_pending_of_chosen_file _ _ ["fileA"] 0 0 "fileA" (by decide)⟩

/-! ### Registration theorems -/

lemma chunk_exists_insert_self (db : DBState) (file : String)
    {chunks : List (Nat × Nat)} (h : chunks ≠ []) :
    chunk_exists (insert_chunks db file chunks) file = true := by
  cases chunks with
  | nil => exact absurd rfl h
  | cons a t =>
    unfold chunk_exists insert_chunks
    rw [List.any_append]
    have hhead : (mkChunkRows file (a :: t)).any (fun r => r.file == file) = true := by
      show (ChunkRow.mk file 0 a.1 a.2
          :: (List.enumFrom 1 t).map (fun ic => ChunkRow.mk file ic.1 ic.2.1 ic.2.2)).any
            (fun r => r.file == file) = true
      simp
    rw [hhead, Bool.or_true]

/-- C8. Calling `insert_chunks` twice with the same document and chunk list
appends the same rows twice — every chunk row then occurs at least twice —
while the coordinator's `chunk_exists`-guarded registration step is
idempotent, so re-registration never occurs under the coordinator. -/
theorem insert_chunks_duplicates_and_guard (db : DBState) (file : String)
    (chunks : List (Nat × Nat)) (h : chunks ≠ []) :
    (insert_chunks (insert_chunks db file chunks) file chunks).fchunks
        = db.fchunks ++ mkChunkRows file chunks ++ mkChunkRows file chunks ∧
    mkChunkRows file chunks ≠ [] ∧
    (∀ r ∈ mkChunkRows file chunks,
      2 ≤ (insert_chunks (insert_chunks db file chunks) file chunks).fchunks.countP
            (fun x => decide (x = r))) ∧
    ∀ (db' : DBState) (f' : String) (content : List Char) (csz : Nat),
      discoverStep (discoverStep db' f' content csz) f' content csz
        = discoverStep db' f' content csz := by
  have hrows : mkChunkRows file chunks ≠ [] := by
    intro habs
    have hlen : (mkChunkRows file chunks).length = chunks.length := by
      simp [mkChunkRows, List.enum_length]
    rw [habs] at hlen
    exact h (List.eq_nil_of_length_eq_zero hlen.symm)
  refine ⟨by simp [insert_chunks, List.append_assoc], hrows, ?_, ?_⟩
  · intro r hr
    have hpos : 0 < (mkChunkRows file chunks).countP (fun x => decide (x = r)) :=
      List.countP_pos_iff.mpr ⟨r, hr, by simp⟩
    have : (insert_chunks (insert_chunks db file chunks) file chunks).fchunks
        = db.fchunks ++ mkChunkRows file chunks ++ mkChunkRows file chunks := by
      simp [insert_chunks, List.append_assoc]
    rw [this, List.countP_append, List.countP_append]
    omega
  · intro db' f' content csz
    by_cases hex : chunk_exists db' f'
    · simp [discoverStep, hex]
    · by_cases hb : calculate_chunks content csz = []
      · have h1 : discoverStep db' f' content csz = db' := by
          simp [discoverStep, hex, hb]
        rw [h1]
        exact h1
      · have h1 : discoverStep db' f' content csz
            = insert_chunks db' f' (calculate_chunks content csz) := by
          simp [discoverStep, hex, hb]
        have hex2 := chunk_exists_insert_self db' f' hb
        rw [h1]
        simp [discoverStep, hex2]

/-- Witness for C8 at a concrete input. -/
theorem insert_chunks_duplicates_witness :
    (([(0, 2)] : List (Nat × Nat)) ≠ []) ∧
    ((insert_chunks (insert_chunks ⟨[], [], []⟩ "f" [(0, 2)]) "f" [(0, 2)]).fchunks
        = ([] : List ChunkRow) ++ mkChunkRows "f" [(0, 2)] ++ mkChunkRows "f" [(0, 2)] ∧
     mkChunkRows "f" [(0, 2)] ≠ [] ∧
     (∀ r ∈ mkChunkRows "f" [(0, 2)],
       2 ≤ (insert_chunks (insert_chunks ⟨[], [], []⟩ "f" [(0, 2)]) "f" [(0, 2)]).fchunks.countP
             (fun x => decide (x = r))) ∧
     ∀ (db' : DBState) (f' : String) (content : List Char) (csz : Nat),
       discoverStep (discoverStep db' f' content csz) f' content csz
         = discoverStep db' f' content csz) :=
  ⟨by decide, insert_chunks_duplicates_and_guard ⟨[], [], []⟩ "f" [(0, 2)] (by decide)⟩

/-! ## Extraction pipeline (`analyzer.py`)

`json.loads` is the Python standard library's strict JSON parser; it is
modelled by a recursive-descent parser over `List Char` producing `Json`
(numbers restricted to integers, which covers every value the claims
touch).  A parse succeeds only when nothing but whitespace follows the
value. -/

/-- JSON inter-token whitespace (`json.loads` strict mode): space, tab,
newline, carriage return. -/
def jsonWs (c : Char) : Bool :=
  [32, 9, 10, 13].contains c.toNat

def skipWs (s : List Char) : List Char :=
  s.dropWhile jsonWs

/-- The value of one hexadecimal digit, by character code: `0`-`9` are
codes 48-57, `a`-`f` are 97-102, `A`-`F` are 65-70. -/
def hexDigitVal (c : Char) : Option Nat :=
  let n := c.toNat
  if 48 ≤ n && n ≤ 57 then some (n - 48)
  else if 97 ≤ n && n ≤ 102 then some (n - 87)
  else if 65 ≤ n && n ≤ 70 then some (n - 55)
  else none

/-- Parse the remainder of a JSON string literal (after the opening quote). -/
def pStringChars : List Char → Option (List Char × List Char)
  | [] => none
  | '"' :: rest => some ([], rest)
  | '\\' :: esc =>
    match esc with
    | '"' :: rest => (pStringChars rest).map fun p => ('"' :: p.1, p.2)
    | '\\' :: rest => (pStringChars rest).map fun p => ('\\' :: p.1, p.2)
    | '/' :: rest => (pStringChars rest).map fun p => ('/' :: p.1, p.2)
    | 'b' :: rest => (pStringChars rest).map fun p => ('\x08' :: p.1, p.2)
    | 'f' :: rest => (pStringChars rest).map fun p => ('\x0c' :: p.1, p.2)
    | 'n' :: rest => (pStringChars rest).map fun p => ('\n' :: p.1, p.2)
    | 'r' :: rest => (pStringChars rest).map fun p => ('\r' :: p.1, p.2)
    | 't' :: rest => (pStringChars rest).map fun p => ('\t' :: p.1, p.2)
    | 'u' :: h1 :: h2 :: h3 :: h4 :: rest =>
      match hexDigitVal h1, hexDigitVal h2, hexDigitVal h3, hexDigitVal h4 with
      | some a, some b, some c, some d =>
        (pStringChars rest).map fun p =>
          (Char.ofNat (((a * 16 + b) * 16 + c) * 16 + d) :: p.1, p.2)
      | _, _, _, _ => none
    | _ => none
  | c :: rest => (pStringChars rest).map fun p => (c :: p.1, p.2)

/-- Parse a nonempty digit run as a natural number. -/
def pDigits (s : List Char) : Option (Nat × List Char) :=
  let ds := s.takeWhile Char.isDigit
  if ds.length = 0 then none
  else some (ds.foldl (fun n c => 10 * n + (c.toNat - '0'.toNat)) 0, s.drop ds.length)

/-- Integer-only JSON number (a following `.`, `e` or `E` is rejected,
a restriction of this model). -/
def pIntNum (s : List Char) : Option (Int × List Char) :=
  match s with
  | '-' :: rest =>
    match pDigits rest with
    | some (n, r) =>
      match r with
      | c :: _ => if c == '.' || c == 'e' || c == 'E' then none else some (-(n : Int), r)
      | [] => some (-(n : Int), r)
    | none => none
  | _ =>
    match pDigits s with
    | some (n, r) =>
      match r with
      | c :: _ => if c == '.' || c == 'e' || c == 'E' then none else some ((n : Int), r)
      | [] => some ((n : Int), r)
    | none => none

mutual

def pVal : Nat → List Char → Option (Json × List Char)
  | 0, _ => none
  | fuel + 1, s =>
    match skipWs s with
    | [] => none
    | c :: rest =>
      if c = '"' then (pStringChars rest).map fun p => (.str p.1.asString, p.2)
      else if c = '\x7b' then
        match skipWs rest with
        | '\x7d' :: r2 => some (.obj [], r2)
        | r2 => (pMembers fuel r2).map fun p => (.obj p.1, p.2)
      else if c = '[' then
        match skipWs rest with
        | ']' :: r2 => some (.arr [], r2)
        | r2 => (pElems fuel r2).map fun p => (.arr p.1, p.2)
      else if c = 't' then
        match rest with
        | 'r' :: 'u' :: 'e' :: r2 => some (.bool true, r2)
        | _ => none
      else if c = 'f' then
        match rest with
        | 'a' :: 'l' :: 's' :: 'e' :: r2 => some (.bool false, r2)
        | _ => none
      else if c = 'n' then
        match rest with
        | 'u' :: 'l' :: 'l' :: r2 => some (.null, r2)
        | _ => none
      else if c = '-' || c.isDigit then (pIntNum (c :: rest)).map fun p => (.num p.1, p.2)
      else none

def pMembers : Nat → List Char → Option (List (String × Json) × List Char)
  | 0, _ => none
  | fuel + 1, s =>
    match skipWs s with
    | '"' :: rest =>
      match pStringChars rest with
      | none => none
      | some (key, r1) =>
        match skipWs r1 with
        | ':' :: r2 =>
          match pVal fuel r2 with
          | none => none
          | some (v, r3) =>
            match skipWs r3 with
            | ',' :: r4 => (pMembers fuel r4).map fun p => ((key.asString, v) :: p.1, p.2)
            | '\x7d' :: r4 => some ([(key.asString, v)], r4)
            | _ => none
        | _ => none
    | _ => none

def pElems : Nat → List Char → Option (List Json × List Char)
  | 0, _ => none
  | fuel + 1, s =>
    match pVal fuel s with
    | none => none
    | some (v, r1) =>
      match skipWs r1 with
      | ',' :: r2 => (pElems fuel r2).map fun p => (v :: p.1, p.2)
      | ']' :: r2 => some ([v], r2)
      | _ => none

end

/-- Model of Python `json.loads`: parse one value, then require only
whitespace to remain. -/
def json_loads (s : List Char) : Option Json :=
  match pVal (s.length + 1) s with
  | some (v, rest) => if skipWs rest = [] then some v else none
  | none => none

/-- Python `str.strip()`. -/
def pyStrip (s : List Char) : List Char :=
  ((s.dropWhile pyIsSpace).reverse.dropWhile pyIsSpace).reverse

/-- First index at which `pat` occurs in `s` (Python `str.find`). -/
def findSub (pat : List Char) : List Char → Option Nat
  | [] => if pat.isPrefixOf ([] : List Char) then some 0 else none
  | c :: rest =>
    if pat.isPrefixOf (c :: rest) then some 0
    else (findSub pat rest).map (· + 1)

/-- Python regex `^` under MULTILINE: start of string or right after `\n`. -/
def atLineStart (s : List Char) (i : Nat) : Bool :=
  i == 0 || s.get? (i - 1) == some '\n'

/-- Python regex `$` under MULTILINE: end of string or right before `\n`. -/
def atLineEnd (s : List Char) (i : Nat) : Bool :=
  i == s.length || s.get? i == some '\n'

/-- Matcher for `^lit\s*` (MULTILINE): at a line start, the literal
followed by the maximal whitespace run. -/
def matchFenceOpen (lit : List Char) (s : List Char) (i : Nat) : Option Nat :=
  if atLineStart s i && lit.isPrefixOf (s.drop i) then
    some (i + lit.length + wsRunLen s (i + lit.length))
  else none

/-- Matcher for `\s*` ``` `$` (MULTILINE): a whitespace run, three
backticks, then a line end.  The backticks can only start at the first
non-whitespace position of the run. -/
def matchFenceClose (s : List Char) (i : Nat) : Option Nat :=
  let r := wsRunLen s i
  if ("```".data).isPrefixOf (s.drop (i + r)) && atLineEnd s (i + r + 3) then
    some (i + r + 3)
  else none

/-- `re.sub(pattern, '', s)`: scan left to right, drop every
non-overlapping match, keep everything else. -/
def applySubGo (m : List Char → Nat → Option Nat) (s : List Char) :
    Nat → Nat → List Char
  | 0, _ => []
  | fuel + 1, i =>
    if h : i < s.length then
      match m s i with
      | some e => applySubGo m s fuel (max e (i + 1))
      | none => s.get ⟨i, h⟩ :: applySubGo m s fuel (i + 1)
    else []

def applySub (m : List Char → Nat → Option Nat) (s : List Char) : List Char :=
  applySubGo m s (s.length + 1) 0

/-- `DocumentAnalyzer._aggressive_json_cleaning`: extract the interior of
the first ```` ```json … ``` ```` block (`re.search`, group stripped); if
it parses as JSON return it, else return the original response. -/
def aggressive_json_cleaning (s : List Char) : List Char :=
  match findSub ("```json".data) s with
  | none => s
  | some p =>
    match findSub ("```".data) (s.drop (p + 7)) with
    | none => s
    | some q =>
      let inner := pyStrip ((s.drop (p + 7)).take q)
      if (json_loads inner).isSome then inner else s

/-- `DocumentAnalyzer._super_aggressive_json_cleaning`: substring from the
first `{` to the last `}`; if it parses as JSON return it, else return
the original response. -/
def super_aggressive_json_cleaning (s : List Char) : List Char :=
  match findSub ('\x7b' :: []) s, lastIdxOf '\x7d' s with
  | some a, some b =>
    let sub := (s.drop a).take (b + 1 - a)
    if (json_loads sub).isSome then sub else s
  | _, _ => s

/-- `DocumentAnalyzer.clean_json_response`.  An empty response is returned
unchanged (the Python function returns the falsy string itself, here the
empty string value).  Otherwise: strip, remove `^```json\s*`, `^```\s*`
and `\s*```$` fence lines, strip again, and parse; on failure fall back
to the aggressive and then the super-aggressive cleaning of the original
response; `none` only after all three parses fail. -/
def clean_json_response (response : List Char) : Option Json :=
  if response = [] then some (.str "")
  else
    let cleaned := pyStrip (applySub matchFenceClose
      (applySub (matchFenceOpen ("```".data))
        (applySub (matchFenceOpen ("```json".data)) (pyStrip response))))
    match json_loads cleaned with
    | some j => some j
    | none =>
      match json_loads (aggressive_json_cleaning response) with
      | some j => some j
      | none =>
        match json_loads (super_aggressive_json_cleaning response) with
        | some j => some j
        | none => none

/-! ### Salvage-tier theorems -/

/-- Modelled from the spec: salvage Tier 1 — parse the whole trimmed
response text directly. -/
def specTier1 (s : List Char) : Option Json :=
  json_loads (pyStrip s)

/-- Modelled from the spec: salvage Tier 2 — if the text contains a fenced
code block, parse its interior. -/
def specTier2 (s : List Char) : Option Json :=
  match findSub ("```json".data) s with
  | none => none
  | some p =>
    match findSub ("```".data) (s.drop (p + 7)) with
    | none => none
    | some q => json_loads (pyStrip ((s.drop (p + 7)).take q))

/-- Modelled from the spec: salvage Tier 3 — parse the substring from the
first `{` to the last `}` in the text. -/
def specTier3 (s : List Char) : Option Json :=
  match findSub ('\x7b' :: []) s, lastIdxOf '\x7d' s with
  | some a, some b => json_loads ((s.drop a).take (b + 1 - a))
  | _, _ => none

/-- C4. On the four example inputs the salvage pipeline behaves as the
tier cascade describes: plain JSON passes Tier 1; fenced JSON fails
Tier 1 and passes Tier 2; noise-wrapped JSON fails Tiers 1–2 and passes
Tier 3; prose fails all tiers and `clean_json_response` carries no data. -/
theorem salvage_tiers_on_examples :
    (specTier1 "\x7b\"a\":1\x7d".data = some (.obj [("a", .num 1)]) ∧
     clean_json_response "\x7b\"a\":1\x7d".data = some (.obj [("a", .num 1)])) ∧
    (specTier1 "```json\n\x7b\"a\":1\x7d\n```".data = none ∧
     specTier2 "```json\n\x7b\"a\":1\x7d\n```".data = some (.obj [("a", .num 1)]) ∧
     clean_json_response "```json\n\x7b\"a\":1\x7d\n```".data = some (.obj [("a", .num 1)])) ∧
    (specTier1 "noise\x7b\"a\":1\x7dmore noise".data = none ∧
     specTier2 "noise\x7b\"a\":1\x7dmore noise".data = none ∧
     specTier3 "noise\x7b\"a\":1\x7dmore noise".data = some (.obj [("a", .num 1)]) ∧
     clean_json_response "noise\x7b\"a\":1\x7dmore noise".data = some (.obj [("a", .num 1)])) ∧
    (specTier1 "no structured data here".data = none ∧
     specTier2 "no structured data here".data = none ∧
     specTier3 "no structured data here".data = none ∧
     clean_json_response "no structured data here".data = none) :=
  ⟨⟨rfl, rfl⟩, ⟨rfl, rfl, rfl⟩, ⟨rfl, rfl, rfl, rfl⟩, ⟨rfl, rfl, rfl, rfl⟩⟩

/-! ### Response processing (`DocumentAnalyzer.process_chunk`) -/

/-- `ProcessingResult` of `processing_result.py`. -/
structure ProcessingResult where
  success : Bool
  raw_response : String
  extracted_data : Option Json := none
  error_message : Option String := none

/-- Python `name in json_response`: key membership for a dict, substring
for a str, element equality for a list, and `TypeError` otherwise. -/
def pyContains (j : Json) (name : String) : Except Unit Bool :=
  match j with
  | .obj fields => .ok (fields.any fun f => f.1 == name)
  | .str s => .ok ((findSub name.data s.data).isSome)
  | .arr xs => .ok (xs.any fun x => match x with | .str t => t == name | _ => false)
  | _ => .error ()

/-- The required-node list comprehension of `process_chunk`:
`[n for n, c in node_configs.items() if c.get('required', False) and n not in json_response]`
(`and` short-circuits, so only required nodes can raise the `TypeError`). -/
def requiredMissing : List (String × Bool) → Json → Except Unit (List String)
  | [], _ => .ok []
  | (n, req) :: rest, j =>
    if req then
      match pyContains j n with
      | .error e => .error e
      | .ok b =>
        match requiredMissing rest j with
        | .error e => .error e
        | .ok l => .ok (if b then l else n :: l)
    else requiredMissing rest j

/-- The required names absent from the keys of a parsed object. -/
def missing_required (node_configs : List (String × Bool))
    (fields : List (String × Json)) : List String :=
  (node_configs.filter fun nc => nc.2 && !(fields.any fun f => f.1 == nc.1)).map Prod.fst

lemma requiredMissing_obj (ncs : List (String × Bool)) (fields : List (String × Json)) :
    requiredMissing ncs (.obj fields) = .ok (missing_required ncs fields) := by
  induction ncs with
  | nil => rfl
  | cons nc rest ih =>
    obtain ⟨n, req⟩ := nc
    by_cases hreq : req
    · subst hreq
      by_cases hin : fields.any fun f => f.1 == n
      · simp [requiredMissing, pyContains, missing_required, hin, ih, List.filter_cons]
      · simp only [Bool.not_eq_true] at hin
        simp [requiredMissing, pyContains, missing_required, hin, ih, List.filter_cons]
    · simp only [Bool.not_eq_true] at hreq
      subst hreq
      simp [requiredMissing, missing_required, List.filter_cons, ih]

/-- Stages 1–2 of `DocumentAnalyzer.process_chunk` for non-empty content:
the `ProcessingResult` built from the LLM response (`response` and
`full_response` are the pair returned by `get_llm_response`).  A
`TypeError` from the Python `in` check on non-container data is caught by
the stage's exception handler and becomes a failure result. -/
def stage2_result (cfg : ExtractorConfig) (response : Option String)
    (full_response : String) : ProcessingResult :=
  match response with
  | none =>
    { success := false, raw_response := full_response, extracted_data := none,
      error_message := some ("LLM request failed or returned empty response. Raw details: "
        ++ full_response) }
  | some r =>
    match clean_json_response r.data with
    | none =>
      { success := false, raw_response := full_response, extracted_data := none,
        error_message := some "Failed to extract valid JSON from LLM response." }
    | some j =>
      match requiredMissing cfg.node_configs j with
      | .error _ =>
        { success := false, raw_response := full_response, extracted_data := none,
          error_message := some "Unexpected processing error: TypeError" }
      | .ok missing =>
        if missing ≠ [] then
          { success := false, raw_response := full_response, extracted_data := some j,
            error_message := some ("Missing required JSON nodes: "
              ++ String.intercalate ", " missing) }
        else
          { success := true, raw_response := full_response, extracted_data := some j,
            error_message := none }

/-- C9. Whenever the salvaged response parses into an object missing at
least one required field, the pipeline's result is a failure whose error
message names the missing fields while retaining the partially-parsed
data — unlike the unparseable case, whose result carries no data. -/
theorem missing_required_fields_failure (cfg : ExtractorConfig)
    (response full : String) (fields : List (String × Json))
    (h1 : clean_json_response response.data = some (Json.obj fields))
    (h2 : missing_required cfg.node_configs fields ≠ []) :
    stage2_result cfg (some response) full =
      { success := false, raw_response := full,
        extracted_data := some (Json.obj fields),
        error_message := some ("Missing required JSON nodes: "
          ++ String.intercalate ", " (missing_required cfg.node_configs fields)) } ∧
    ∀ r : String, clean_json_response r.data = none →
      (stage2_result cfg (some r) full).extracted_data = none ∧
      (stage2_result cfg (some r) full).success = false := by
  constructor
  · simp only [stage2_result, h1, requiredMissing_obj]
    rw [if_pos h2]
  · intro r hr
    simp [stage2_result, hr]

/-- Witness for C9 at a concrete input: field `b` is required but absent. -/
theorem missing_required_fields_failure_witness :
    (clean_json_response "\x7b\"a\":1\x7d".data = some (Json.obj [("a", .num 1)]) ∧
     missing_required [("a", false), ("b", true)] [("a", .num 1)] ≠ []) ∧
    (stage2_result ⟨"m", none, 2, [("a", false), ("b", true)], []⟩
        (some "\x7b\"a\":1\x7d") "raw" =
      { success := false, raw_response := "raw",
        extracted_data := some (Json.obj [("a", .num 1)]),
        error_message := some ("Missing required JSON nodes: "
          ++ String.intercalate ", " (missing_required [("a", false), ("b", true)]
              [("a", .num 1)])) } ∧
     ∀ r : String, clean_json_response r.data = none →
       (stage2_result ⟨"m", none, 2, [("a", false), ("b", true)], []⟩
          (some r) "raw").extracted_data = none ∧
       (stage2_result ⟨"m", none, 2, [("a", false), ("b", true)], []⟩
          (some r) "raw").success = false) :=
  ⟨⟨rfl, by decide⟩,
   missing_required_fields_failure ⟨"m", none, 2, [("a", false), ("b", true)], []⟩
     "\x7b\"a\":1\x7d" "raw" [("a", .num 1)] rfl (by decide)⟩

/-! ### The attempt-logging stage (`process_chunk` Stage 3) -/

/-- `Database.log_request` takes file, chunk number, timestamp and result
(four parameters besides `self`, `database_handler.py`). -/
def log_request_param_count : Nat := 4

/-- `process_chunk` calls `db.log_request(filename, chunk_number, result)`
with three arguments (`analyzer.py`, the legacy monolith's signature). -/
def process_chunk_log_call_arg_count : Nat := 3

/-- `Database.log_request`: append one REQUEST_LOG row, commit, and return
its rowid. -/
def log_request (db : DBState) (cfg : ExtractorConfig) (file : String)
    (chunk_number : Nat) (timestamp : Nat) (result : ProcessingResult) : DBState × Int :=
  let row : LogRow := ⟨file, chunk_number, timestamp, cfg.model,
    result.raw_response, result.success, result.error_message⟩
  ({ db with request_log := db.request_log ++ [row] }, (db.request_log.length : Int))

/-- Python `data.get(json_node)` on the parsed object. -/
def jsonGet (j : Json) (k : String) : Option Json :=
  match j with
  | .obj fields => (fields.find? fun f => f.1 == k).map Prod.snd
  | _ => none

/-- `Database.store_results`: insert one results-table row with the run
tag and the configured destination-column values. -/
def store_results (db : DBState) (cfg : ExtractorConfig) (request_id : Int)
    (file : String) (chunk_number : Nat) (data : Json) : DBState :=
  let extra := cfg.db_mapping.map fun m => (m.2, jsonGet data m.1)
  { db with results := db.results ++ [⟨request_id, file, chunk_number, cfg.run_tag, extra⟩] }

/-- `DocumentAnalyzer.process_chunk`: Stage 1 short-circuits empty content,
Stage 2 builds the result, Stage 3 logs the attempt and stores the result
on success.  Python calls methods dynamically: a call whose argument count
differs from the signature's parameter count raises `TypeError` before the
method body runs, which the surrounding `except` blocks catch. -/
def process_chunk (db : DBState) (cfg : ExtractorConfig) (filename : String)
    (chunk_number : Nat) (chunk_content : String) (response : Option String)
    (full_response : String) (timestamp : Nat) : DBState × Bool :=
  if chunk_content = "" then
    if process_chunk_log_call_arg_count = log_request_param_count then
      let result : ProcessingResult :=
        { success := false, raw_response := "",
          error_message := some "Chunk content was empty, skipped LLM call." }
      let logged := log_request db cfg filename chunk_number timestamp result
      (logged.1, false)
    else (db, false)
  else
    let result := stage2_result cfg response full_response
    if process_chunk_log_call_arg_count = log_request_param_count then
      let logged := log_request db cfg filename chunk_number timestamp result
      if logged.2 == -1 then (logged.1, false)
      else if result.success then
        match result.extracted_data with
        | some data => (store_results logged.1 cfg logged.2 filename chunk_number data, true)
        | none => (logged.1, true)
      else (logged.1, false)
    else (db, false)

/-- C3 evaluated against the code: because `process_chunk` passes three
arguments to the four-parameter `log_request`, the call raises `TypeError`
on every invocation; the exception is caught, no Attempt row is ever
appended, nothing is ever stored, and `process_chunk` always returns
failure. -/
theorem process_chunk_never_logs_attempt (db : DBState) (cfg : ExtractorConfig)
    (filename : String) (chunk_number : Nat) (chunk_content : String)
    (response : Option String) (full_response : String) (timestamp : Nat) :
    process_chunk db cfg filename chunk_number chunk_content response
        full_response timestamp = (db, false) ∧
    process_chunk_log_call_arg_count ≠ log_request_param_count := by
  have h34 : ¬ (process_chunk_log_call_arg_count = log_request_param_count) := by decide
  refine ⟨?_, h34⟩
  by_cases hc : chunk_content = ""
  · simp [process_chunk, hc, h34]
  · simp [process_chunk, hc, h34]

/-! ## Store failure handling (`database_handler.connect`,
`database_handler._execute_query`, `logging_wrapper.LoggingWrapper`) -/

/-- The error-counting state of `LoggingWrapper`. -/
structure LoggerState where
  errorCount : Nat
  maxPassableErrors : Nat

/-- `LoggingWrapper._log` for the error/exception/critical family:
increment the counter, then `sys.exit(1)` iff the counter exceeds the
maximum passable errors.  Returns the new state and whether the process
exited. -/
def logError (st : LoggerState) : LoggerState × Bool :=
  let st' : LoggerState := ⟨st.errorCount + 1, st.maxPassableErrors⟩
  (st', st'.errorCount > st.maxPassableErrors)

/-- The sqlite exceptions `_execute_query` handles. -/
inductive QueryError where
  | integrity
  | operational
  | unexpected
  deriving DecidableEq

/-- `Database._execute_query` with an injected failure: every error branch
logs an error, rolls back, and returns `None` — control returns to the
caller; the process exits only through the logger's error budget.  The
result is (cursor produced?, logger state, process exited?). -/
def execute_query (connected : Bool) (err : Option QueryError)
    (lg : LoggerState) : Bool × LoggerState × Bool :=
  if ¬ connected then
    let logged := logError lg
    (false, logged.1, logged.2)
  else
    match err with
    | none => (true, lg, false)
    | some _ =>
      let logged := logError lg
      (false, logged.1, logged.2)

/-- The ways `Database.connect` can go. -/
inductive ConnectOutcome where
  | ok
  | operationalError
  | integrityCheckFailed
  | unexpectedError
  deriving DecidableEq

/-- `Database.connect`: every failure path calls
`logger.critical_exit(...)`, which unconditionally terminates the
process.  Returns (connected?, process exited?). -/
def connect (o : ConnectOutcome) : Bool × Bool :=
  match o with
  | .ok => (true, false)
  | .operationalError => (false, true)
  | .integrityCheckFailed => (false, true)
  | .unexpectedError => (false, true)

/-- C5 counterexample: a store failure during query execution with a fresh
error budget does not terminate the process — the error is logged and
swallowed (`_execute_query` returns `None`) and the run continues, so not
every storage failure is fatal. -/
theorem store_error_not_always_fatal :
    (execute_query true (some .operational) ⟨0, 3⟩).2.2 = false ∧
    (execute_query true (some .operational) ⟨0, 3⟩).1 = false ∧
    (execute_query true (some .integrity) ⟨0, 3⟩).2.2 = false := by
  decide

/-- C5 (amended): a storage failure at connect time (connection error or
failed integrity check) always terminates the process, while a storage
failure during query execution is logged, rolled back and swallowed —
the query yields no cursor — and terminates the process only when the
cumulative logged-error count exceeds the configured maximum passable
errors. -/
theorem store_failure_fatality (o : ConnectOutcome) (e : QueryError)
    (lg : LoggerState) :
    (connect o).2 = decide (o ≠ ConnectOutcome.ok) ∧
    (execute_query true (some e) lg).1 = false ∧
    (execute_query true (some e) lg).2.2
      = decide (lg.errorCount + 1 > lg.maxPassableErrors) := by
  refine ⟨?_, rfl, rfl⟩
  cases o <;> rfl

/-! ## Cancellation (`helpers.signal_handler`, `main.py`) -/

/-- The methods defined on `Database` in `database_handler.py`. -/
def database_methods : List String :=
  ["connect", "close", "init_tables", "create_indexes", "chunk_exists",
   "insert_chunks", "get_chunk_bounds", "get_unprocessed_chunks",
   "get_files_with_potential_unprocessed_chunks", "get_all_files_in_fchunks",
   "log_request", "store_results", "get_all_skipped_chunks_for_run",
   "get_run_summary_stats"]

/-- Whether `db_instance.get_run_summary(...)` resolves: the attribute
lookup that `signal_handler` and `main`'s summary emission perform. -/
def get_run_summary_defined : Bool :=
  database_methods.contains "get_run_summary"

/-- The observable state of an interrupted run.  `helpers_flag` is
`helpers.signal_received`; `main_flag` is the distinct module-level
binding `main.signal_received` created by
`from .helpers import signal_received` plus `signal_received = False`,
which the coordinator loop's checks read. -/
structure SignalState where
  helpers_flag : Bool
  main_flag : Bool
  db_closed : Bool
  summary_emitted : Bool
  exit_code : Option Nat
  deriving DecidableEq

/-- `helpers.signal_handler` run on SIGINT: set `helpers.signal_received`
(only its own module's binding), attempt the run summary — an
`AttributeError`, since `Database` defines no `get_run_summary`, caught by
the handler's `except` — close the store, and `sys.exit(0)` from inside
the handler, before control can return to the coordinator loop. -/
def signal_handler (st : SignalState) : SignalState :=
  if st.helpers_flag then st
  else
    let st1 : SignalState := { st with helpers_flag := true }
    let st2 : SignalState :=
      if get_run_summary_defined then { st1 with summary_emitted := true } else st1
    let st3 : SignalState := { st2 with db_closed := true }
    { st3 with exit_code := some 0 }

/-- C6 evaluated against the code: on an interrupt the handler itself
exits the process (exit code 0) after closing the store, the run summary
is never emitted because `Database` has no `get_run_summary` method, and
the coordinator's own cancellation flag is never set, so the cooperative
"complete the in-flight unit, then summarize" path cannot run. -/
theorem interrupt_exits_in_handler_without_summary :
    get_run_summary_defined = false ∧
    signal_handler ⟨false, false, false, false, none⟩
      = ⟨true, false, true, false, some 0⟩ := by
  decide

end GarTool
